import Mathlib

/-!
Shallow embedding of the `RemovePodsViolatingInterPodAffinity` descheduler
plugin (`pkg/framework/plugins/removepodsviolatinginterpodaffinity`) and of
the collaborator interfaces its eviction-selection loop consumes.  Effects
are made explicit: `Deschedule` returns, besides its `*Status` result, the
trace of pods on which `Evict` was called, in call order.
-/

namespace InterPodAffinity

/-- QoS class of a pod (`pod.Status.QOSClass`), the ordered tier used as the
tie-break in eviction ordering. -/
inductive QOSClass where
  | BestEffort
  | Burstable
  | Guaranteed
  deriving DecidableEq, Repr

/-- Rank of a QoS tier: best-effort pods are evicted first. -/
def QOSClass.rank : QOSClass → Nat
  | .BestEffort => 0
  | .Burstable => 1
  | .Guaranteed => 2

/-- A pod, restricted to the fields this plugin reads: identity (name and
namespace), owning node (`Spec.NodeName`), declared priority
(`Spec.Priority`), QoS class and labels. -/
structure Pod where
  Name : String
  Namespace : String
  NodeName : String
  Priority : Int
  qosClass : QOSClass
  Labels : List (String × String)
  deriving DecidableEq, Repr

/-- A node, restricted to its identity (`node.Name`), the only field the
selection loop itself reads. -/
structure Node where
  Name : String
  deriving DecidableEq, Repr

/-- Result of one `Evict` call.  `success` stands for a nil error; the two
limit variants model `*evictions.EvictionNodeLimitError` and
`*evictions.EvictionTotalLimitError`, the only types the switch in
`Deschedule` names; `namespaceLimit` models
`*evictions.EvictionNamespaceLimitError`, which, like `success` and
`otherError`, is handled by the `default` branch. -/
inductive EvictOutcome where
  | success
  | nodeLimit
  | totalLimit
  | namespaceLimit
  | otherError (msg : String)
  deriving DecidableEq, Repr

/-- Cancellation state of the `context.Context` handed to `Deschedule`.  The
loop forwards it to `Evict` and reads nothing else from it. -/
structure Ctx where
  cancelled : Bool
  deriving DecidableEq, Repr

/-- `frameworktypes.Status`.  `Deschedule` returns a nil pointer (`none`) on
a clean run. -/
structure Status where
  Err : Option String
  deriving DecidableEq, Repr

/-- The Eviction Gate collaborator (`d.handle.Evictor()`): two-stage
admission check plus the evict action.  `Evict` receives the invocation
context, exactly as at the call site in the source. -/
structure Evictor where
  Filter : Pod → Bool
  PreEvictionFilter : Pod → Bool
  Evict : Ctx → Pod → EvictOutcome

/-- The plugin handle together with the Affinity Oracle.
`ListPodsOnNodes` stands for `podutil.ListPodsOnNodes(nodes,
d.handle.GetPodsAssignedToNodeFunc(), d.podFilter)` and
`CheckPodAffinityViolation` for `utils.CheckPodAffinityViolation`; both are
collaborators whose sources are outside this plugin's package, abstracted
here at their interface. -/
structure Handle where
  ListPodsOnNodes : List Node → Except String (List Pod)
  CheckPodAffinityViolation : Pod → (String → List Pod) → (String → Option Node) → Bool
  evictor : Evictor

/-- Modelled from the spec: `podutil.GroupByNamespace` (Pod Classifier,
source not vendored here) — the mapping from namespace name to the pods of
that namespace. -/
def GroupByNamespace (pods : List Pod) : String → List Pod :=
  fun ns => pods.filter (fun p => p.Namespace == ns)

/-- Modelled from the spec: `podutil.GroupByNodeName` (Pod Classifier,
source not vendored here) — the mapping from node name to the pods
scheduled on that node. -/
def GroupByNodeName (pods : List Pod) : String → List Pod :=
  fun name => pods.filter (fun p => p.NodeName == name)

/-- Modelled from the spec: `utils.CreateNodeMap` (source not vendored
here) — the node-name-indexed topology map consumed by the Affinity
Oracle. -/
def CreateNodeMap (nodes : List Node) : String → Option Node :=
  fun name => nodes.find? (fun n => n.Name == name)

/-- Eviction-ordering key of a pod: declared priority first, QoS tier
second. -/
def evictionKey (p : Pod) : Int × Nat :=
  (p.Priority, p.qosClass.rank)

/-- Comparison used by the Priority Orderer: lower declared priority is
evicted first, ties broken by ascending QoS tier. -/
def evictionKeyLe (p q : Pod) : Prop :=
  p.Priority < q.Priority ∨ (p.Priority = q.Priority ∧ p.qosClass.rank ≤ q.qosClass.rank)

instance : DecidableRel evictionKeyLe := fun p q => by
  unfold evictionKeyLe
  exact inferInstance

instance : IsTotal Pod evictionKeyLe where
  total a b := by
    rcases lt_trichotomy a.Priority b.Priority with h | h | h
    · exact Or.inl (Or.inl h)
    · rcases Nat.le_total a.qosClass.rank b.qosClass.rank with hr | hr
      · exact Or.inl (Or.inr ⟨h, hr⟩)
      · exact Or.inr (Or.inr ⟨h.symm, hr⟩)
    · exact Or.inr (Or.inl h)

instance : IsTrans Pod evictionKeyLe where
  trans a b c hab hbc := by
    rcases hab with hab | ⟨hab, hab'⟩ <;> rcases hbc with hbc | ⟨hbc, hbc'⟩
    · exact Or.inl (hab.trans hbc)
    · exact Or.inl (hbc ▸ hab)
    · exact Or.inl (hab ▸ hbc)
    · exact Or.inr ⟨hab.trans hbc, hab'.trans hbc'⟩

/-- Modelled from the spec: `podutil.SortPodsBasedOnPriorityLowToHigh`
(Priority Orderer, source not vendored here) — produce a new ordered
sequence of the node's pods, ascending by declared priority with ties
broken by ascending QoS tier, stable on full ties. -/
def SortPodsBasedOnPriorityLowToHigh (pods : List Pod) : List Pod :=
  List.insertionSort evictionKeyLe pods

/-- How the scan of one node's pod list ended: normally, through the
`continue loop` taken on a node-limit error, or through the `return nil`
taken on a total-limit error. -/
inductive NodeScan where
  | normal
  | nodeLimitHit
  | totalLimitHit
  deriving DecidableEq, Repr

/-- Inner pod loop of `Deschedule` (pod_affinity.go lines 98-112): scan one
node's sorted pod list, calling `Evict` on each pod that the Affinity
Oracle flags and that passes both admission checks.  Returns the trace of
`Evict` calls made on this node and how the scan ended. -/
def scanPods (ev : Evictor) (violates : Pod → Bool) (ctx : Ctx) :
    List Pod → List Pod × NodeScan
  | [] => ([], NodeScan.normal)
  | p :: rest =>
    if violates p then
      if ev.Filter p && ev.PreEvictionFilter p then
        if ev.Evict ctx p = EvictOutcome.nodeLimit then
          ([p], NodeScan.nodeLimitHit)
        else if ev.Evict ctx p = EvictOutcome.totalLimit then
          ([p], NodeScan.totalLimitHit)
        else
          (p :: (scanPods ev violates ctx rest).1, (scanPods ev violates ctx rest).2)
      else scanPods ev violates ctx rest
    else scanPods ev violates ctx rest

/-- Outer node loop of `Deschedule` (pod_affinity.go lines 91-113, label
`loop`): nodes in input order; a node-limit outcome abandons the current
node only, a total-limit outcome ends the whole run. -/
def scanNodes (ev : Evictor) (violates : Pod → Bool)
    (podsOnANode : String → List Pod) (ctx : Ctx) : List Node → List Pod
  | [] => []
  | n :: rest =>
    let scanned := scanPods ev violates ctx
      (SortPodsBasedOnPriorityLowToHigh (podsOnANode n.Name))
    if scanned.2 = NodeScan.totalLimitHit then scanned.1
    else scanned.1 ++ scanNodes ev violates podsOnANode ctx rest

/-- `Deschedule` (pod_affinity.go lines 79-115).  Returns the `*Status`
result together with the trace of `Evict` calls of the run. -/
def Deschedule (h : Handle) (ctx : Ctx) (nodes : List Node) :
    Option Status × List Pod :=
  match h.ListPodsOnNodes nodes with
  | Except.error e => (some ⟨some ("error listing all pods: " ++ e)⟩, [])
  | Except.ok pods =>
    let podsInANamespace := GroupByNamespace pods
    let podsOnANode := GroupByNodeName pods
    let nodeMap := CreateNodeMap nodes
    (none, scanNodes h.evictor
      (fun p => h.CheckPodAffinityViolation p podsInANamespace nodeMap)
      podsOnANode ctx nodes)

/-- `api.Namespaces`: include/exclude namespace lists of the plugin
arguments. -/
structure Namespaces where
  Include : List String
  Exclude : List String
  deriving DecidableEq, Repr

/-- `metav1.LabelSelector`, restricted to its match-labels field. -/
structure LabelSelector where
  matchLabels : List (String × String)
  deriving DecidableEq, Repr

/-- `RemovePodsViolatingInterPodAffinityArgs` (types.go). -/
structure RemovePodsViolatingInterPodAffinityArgs where
  Namespaces : Option Namespaces
  LabelSelector : Option LabelSelector
  deriving DecidableEq, Repr

/-- Modelled from the spec: `podutil.NewOptions()...BuildFilterFunc()`
(source not vendored here).  Include and exclude namespace sets are
mutually exclusive — supplying both is a configuration error; otherwise a
namespace and label-selector pod filter is produced. -/
def BuildFilterFunc (includedNamespaces excludedNamespaces : List String)
    (labelSelector : Option LabelSelector) : Except String (Pod → Bool) :=
  if includedNamespaces ≠ [] ∧ excludedNamespaces ≠ [] then
    Except.error "included and excluded namespaces cannot both be set"
  else
    Except.ok fun p =>
      (includedNamespaces.isEmpty || includedNamespaces.contains p.Namespace) &&
      !(excludedNamespaces.contains p.Namespace) &&
      (match labelSelector with
       | none => true
       | some sel => sel.matchLabels.all (fun kv => p.Labels.contains kv))

/-- Modelled from the spec:
`ValidateRemovePodsViolatingInterPodAffinityArgs` (validation.go, source
not vendored here; exercised by
`TestValidateRemovePodsViolatingInterPodAffinityArgs`): supplying both
include and exclude namespace sets simultaneously is a configuration
error. -/
def ValidateRemovePodsViolatingInterPodAffinityArgs
    (args : RemovePodsViolatingInterPodAffinityArgs) : Except String Unit :=
  match args.Namespaces with
  | none => Except.ok ()
  | some nss =>
    if nss.Include ≠ [] ∧ nss.Exclude ≠ [] then
      Except.error "only one of Include/Exclude namespaces can be set"
    else Except.ok ()

/-- The plugin object built by `New`. -/
structure RemovePodsViolatingInterPodAffinity where
  handle : Handle
  args : RemovePodsViolatingInterPodAffinityArgs
  podFilter : Pod → Bool

/-- `New` (pod_affinity.go lines 47-73).  The Go type assertion on `args`
is outside the embedding (inputs here are already typed). -/
def New (args : RemovePodsViolatingInterPodAffinityArgs) (handle : Handle) :
    Except String RemovePodsViolatingInterPodAffinity :=
  let includedNamespaces := match args.Namespaces with
    | some nss => nss.Include
    | none => []
  let excludedNamespaces := match args.Namespaces with
    | some nss => nss.Exclude
    | none => []
  match BuildFilterFunc includedNamespaces excludedNamespaces args.LabelSelector with
  | Except.error e => Except.error ("error initializing pod filter function: " ++ e)
  | Except.ok podFilter => Except.ok ⟨handle, args, podFilter⟩

/-- `SetDefaults_RemovePodsViolatingInterPodAffinityArgs` (defaults.go
lines 26-34): each branch assigns the field the value it already has. -/
def SetDefaults_RemovePodsViolatingInterPodAffinityArgs
    (args : RemovePodsViolatingInterPodAffinityArgs) :
    RemovePodsViolatingInterPodAffinityArgs :=
  let args1 := if args.Namespaces.isNone then
      ⟨none, args.LabelSelector⟩ else args
  let args2 := if args1.LabelSelector.isNone then
      ⟨args1.Namespaces, none⟩ else args1
  args2

/-! ### Concrete fixtures for closed-instance theorems -/

/-- A context that has not been cancelled. -/
def ctxLive : Ctx := ⟨false⟩

/-- A context whose cancellation signal is set. -/
def ctxCancelled : Ctx := ⟨true⟩

def podA : Pod := ⟨"pa", "default", "na", 0, QOSClass.BestEffort, []⟩

def podB : Pod := ⟨"pb", "default", "nb", 0, QOSClass.BestEffort, []⟩

def podC : Pod := ⟨"pc", "default", "nc", 0, QOSClass.BestEffort, []⟩

def nodeA : Node := ⟨"na"⟩

def nodeB : Node := ⟨"nb"⟩

def nodeC : Node := ⟨"nc"⟩

/-- An Affinity Oracle that flags every pod as violating. -/
def alwaysViolates : Pod → (String → List Pod) → (String → Option Node) → Bool :=
  fun _ _ _ => true

/-- An oracle verdict function that flags every pod. -/
def vAll : Pod → Bool := fun _ => true

/-- A gate whose every eviction reports the total budget exhausted. -/
def evictorTotal : Evictor := ⟨fun _ => true, fun _ => true, fun _ _ => EvictOutcome.totalLimit⟩

def handleTotal : Handle := ⟨fun _ => Except.ok [podA, podB], alwaysViolates, evictorTotal⟩

/-- A gate that reports the node budget exhausted on podB and success
elsewhere. -/
def evictorNodeB : Evictor :=
  ⟨fun _ => true, fun _ => true,
    fun _ p => if p.Name = "pb" then EvictOutcome.nodeLimit else EvictOutcome.success⟩

def handleABC : Handle :=
  ⟨fun _ => Except.ok [podA, podB, podC], alwaysViolates, evictorNodeB⟩

/-- A gate whose every eviction succeeds, independent of the context. -/
def evictorSuccess : Evictor := ⟨fun _ => true, fun _ => true, fun _ _ => EvictOutcome.success⟩

def handleSuccess : Handle := ⟨fun _ => Except.ok [podA, podB], alwaysViolates, evictorSuccess⟩

/-- A gate whose every eviction reports the namespace budget exhausted. -/
def evictorNamespaceLimit : Evictor :=
  ⟨fun _ => true, fun _ => true, fun _ _ => EvictOutcome.namespaceLimit⟩

/-- A handle whose pod listing fails. -/
def handleErr : Handle := ⟨fun _ => Except.error "boom", alwaysViolates, evictorSuccess⟩

/-- Arguments supplying both an include and an exclude namespace set. -/
def argsBoth : RemovePodsViolatingInterPodAffinityArgs :=
  ⟨some ⟨["default"], ["kube-system"]⟩, none⟩

/-! ### Properties of the Priority Orderer -/

theorem evictionKeyLe_of_key_eq {a b : Pod} (h : evictionKey a = evictionKey b) :
    evictionKeyLe a b := by
  unfold evictionKey at h
  rw [Prod.mk.injEq] at h
  exact Or.inr ⟨h.1, le_of_eq h.2⟩

theorem sortPods_perm (l : List Pod) :
    List.Perm (SortPodsBasedOnPriorityLowToHigh l) l :=
  List.perm_insertionSort evictionKeyLe l

theorem sortPods_mem {l : List Pod} {q : Pod} :
    q ∈ SortPodsBasedOnPriorityLowToHigh l ↔ q ∈ l :=
  List.mem_insertionSort evictionKeyLe

theorem sortPods_sorted (l : List Pod) :
    List.Sorted evictionKeyLe (SortPodsBasedOnPriorityLowToHigh l) :=
  List.sorted_insertionSort evictionKeyLe l

theorem filter_key_orderedInsert (a : Pod) (l : List Pod) (k : Int × Nat) :
    (List.orderedInsert evictionKeyLe a l).filter (fun p => decide (evictionKey p = k)) =
      if evictionKey a = k then
        a :: l.filter (fun p => decide (evictionKey p = k))
      else l.filter (fun p => decide (evictionKey p = k)) := by
  induction l with
  | nil =>
    by_cases hk : evictionKey a = k <;>
      simp [List.orderedInsert, List.filter, hk]
  | cons b l ih =>
    by_cases hab : evictionKeyLe a b
    · rw [List.orderedInsert, if_pos hab]
      by_cases hk : evictionKey a = k <;>
        simp [List.filter_cons, hk]
    · rw [List.orderedInsert, if_neg hab]
      by_cases hk : evictionKey a = k
      · by_cases hbk : evictionKey b = k
        · exact absurd (evictionKeyLe_of_key_eq (hk.trans hbk.symm)) hab
        · simp [List.filter_cons, hbk, ih, hk]
      · by_cases hbk : evictionKey b = k <;>
          simp [List.filter_cons, hbk, ih, hk]

/-- Stability of the Priority Orderer: the subsequence of pods carrying any
fixed (priority, QoS-rank) key is returned in its original input order. -/
theorem sortPods_stable (l : List Pod) (k : Int × Nat) :
    (SortPodsBasedOnPriorityLowToHigh l).filter (fun p => decide (evictionKey p = k)) =
      l.filter (fun p => decide (evictionKey p = k)) := by
  unfold SortPodsBasedOnPriorityLowToHigh
  induction l with
  | nil => rfl
  | cons a l ih =>
    rw [List.insertionSort, filter_key_orderedInsert]
    by_cases hk : evictionKey a = k <;>
      simp [List.filter_cons, hk, ih]

/-! ### Unfolding equations of the inner pod loop -/

theorem scanPods_cons_not_violating {v : Pod → Bool} {p : Pod}
    (ev : Evictor) (ctx : Ctx) (rest : List Pod) (hv : ¬ v p = true) :
    scanPods ev v ctx (p :: rest) = scanPods ev v ctx rest := by
  simp [scanPods, hv]

theorem scanPods_cons_not_admitted {ev : Evictor} {v : Pod → Bool} {p : Pod}
    (ctx : Ctx) (rest : List Pod) (hv : v p = true)
    (hf : ¬ (ev.Filter p && ev.PreEvictionFilter p) = true) :
    scanPods ev v ctx (p :: rest) = scanPods ev v ctx rest := by
  simp [scanPods, hv, hf]

theorem scanPods_cons_nodeLimit {ev : Evictor} {v : Pod → Bool} {ctx : Ctx} {p : Pod}
    (rest : List Pod) (hv : v p = true)
    (hf : (ev.Filter p && ev.PreEvictionFilter p) = true)
    (hn : ev.Evict ctx p = EvictOutcome.nodeLimit) :
    scanPods ev v ctx (p :: rest) = ([p], NodeScan.nodeLimitHit) := by
  simp [scanPods, hv, hf, hn]

theorem scanPods_cons_totalLimit {ev : Evictor} {v : Pod → Bool} {ctx : Ctx} {p : Pod}
    (rest : List Pod) (hv : v p = true)
    (hf : (ev.Filter p && ev.PreEvictionFilter p) = true)
    (ht : ev.Evict ctx p = EvictOutcome.totalLimit) :
    scanPods ev v ctx (p :: rest) = ([p], NodeScan.totalLimitHit) := by
  simp [scanPods, hv, hf, ht]

theorem scanPods_cons_default {ev : Evictor} {v : Pod → Bool} {ctx : Ctx} {p : Pod}
    (rest : List Pod) (hv : v p = true)
    (hf : (ev.Filter p && ev.PreEvictionFilter p) = true)
    (hn : ¬ ev.Evict ctx p = EvictOutcome.nodeLimit)
    (ht : ¬ ev.Evict ctx p = EvictOutcome.totalLimit) :
    scanPods ev v ctx (p :: rest) =
      (p :: (scanPods ev v ctx rest).1, (scanPods ev v ctx rest).2) := by
  simp [scanPods, hv, hf, hn, ht]

/-! ### Properties of the inner pod loop -/

theorem scanPods_mem (ev : Evictor) (v : Pod → Bool) (ctx : Ctx) :
    ∀ l q, q ∈ (scanPods ev v ctx l).1 →
      q ∈ l ∧ v q = true ∧ ev.Filter q = true ∧ ev.PreEvictionFilter q = true := by
  intro l
  induction l with
  | nil => intro q hq; simp [scanPods] at hq
  | cons p rest ih =>
    intro q hq
    by_cases hv : v p = true
    · by_cases hf : (ev.Filter p && ev.PreEvictionFilter p) = true
      · have hf' := hf
        rw [Bool.and_eq_true] at hf'
        by_cases hn : ev.Evict ctx p = EvictOutcome.nodeLimit
        · have h1 : (scanPods ev v ctx (p :: rest)).1 = [p] := by
            rw [scanPods_cons_nodeLimit rest hv hf hn]
          rw [h1] at hq
          simp only [List.mem_singleton] at hq
          subst hq
          exact ⟨List.mem_cons_self q rest, hv, hf'.1, hf'.2⟩
        · by_cases ht : ev.Evict ctx p = EvictOutcome.totalLimit
          · have h1 : (scanPods ev v ctx (p :: rest)).1 = [p] := by
              rw [scanPods_cons_totalLimit rest hv hf ht]
            rw [h1] at hq
            simp only [List.mem_singleton] at hq
            subst hq
            exact ⟨List.mem_cons_self q rest, hv, hf'.1, hf'.2⟩
          · have h1 : (scanPods ev v ctx (p :: rest)).1 =
                p :: (scanPods ev v ctx rest).1 := by
              rw [scanPods_cons_default rest hv hf hn ht]
            rw [h1] at hq
            simp only [List.mem_cons] at hq
            rcases hq with rfl | hq
            · exact ⟨List.mem_cons_self q rest, hv, hf'.1, hf'.2⟩
            · rcases ih q hq with ⟨hmem, hrest⟩
              exact ⟨List.mem_cons_of_mem p hmem, hrest⟩
      · rw [scanPods_cons_not_admitted ctx rest hv hf] at hq
        rcases ih q hq with ⟨hmem, hrest⟩
        exact ⟨List.mem_cons_of_mem p hmem, hrest⟩
    · rw [scanPods_cons_not_violating ev ctx rest hv] at hq
      rcases ih q hq with ⟨hmem, hrest⟩
      exact ⟨List.mem_cons_of_mem p hmem, hrest⟩

theorem scanPods_sublist (ev : Evictor) (v : Pod → Bool) (ctx : Ctx) :
    ∀ l, List.Sublist (scanPods ev v ctx l).1 l := by
  intro l
  induction l with
  | nil => exact List.nil_sublist []
  | cons p rest ih =>
    by_cases hv : v p = true
    · by_cases hf : (ev.Filter p && ev.PreEvictionFilter p) = true
      · by_cases hn : ev.Evict ctx p = EvictOutcome.nodeLimit
        · have h1 : (scanPods ev v ctx (p :: rest)).1 = [p] := by
            rw [scanPods_cons_nodeLimit rest hv hf hn]
          rw [h1]
          exact List.Sublist.cons₂ p (List.nil_sublist rest)
        · by_cases ht : ev.Evict ctx p = EvictOutcome.totalLimit
          · have h1 : (scanPods ev v ctx (p :: rest)).1 = [p] := by
              rw [scanPods_cons_totalLimit rest hv hf ht]
            rw [h1]
            exact List.Sublist.cons₂ p (List.nil_sublist rest)
          · have h1 : (scanPods ev v ctx (p :: rest)).1 =
                p :: (scanPods ev v ctx rest).1 := by
              rw [scanPods_cons_default rest hv hf hn ht]
            rw [h1]
            exact List.Sublist.cons₂ p ih
      · rw [scanPods_cons_not_admitted ctx rest hv hf]
        exact List.Sublist.cons p ih
    · rw [scanPods_cons_not_violating ev ctx rest hv]
      exact List.Sublist.cons p ih

theorem scanPods_nodeLimit_last (ev : Evictor) (v : Pod → Bool) (ctx : Ctx) :
    ∀ l t₁ p t₂, (scanPods ev v ctx l).1 = t₁ ++ p :: t₂ →
      ev.Evict ctx p = EvictOutcome.nodeLimit →
      t₂ = [] ∧ (scanPods ev v ctx l).2 = NodeScan.nodeLimitHit := by
  intro l
  induction l with
  | nil =>
    intro t₁ p t₂ h _
    exact absurd h.symm (by simp [scanPods])
  | cons p' rest ih =>
    intro t₁ p t₂ h he
    by_cases hv : v p' = true
    · by_cases hf : (ev.Filter p' && ev.PreEvictionFilter p') = true
      · by_cases hn : ev.Evict ctx p' = EvictOutcome.nodeLimit
        · have h1 : (scanPods ev v ctx (p' :: rest)).1 = [p'] := by
            rw [scanPods_cons_nodeLimit rest hv hf hn]
          have h2 : (scanPods ev v ctx (p' :: rest)).2 = NodeScan.nodeLimitHit := by
            rw [scanPods_cons_nodeLimit rest hv hf hn]
          rw [h1] at h
          cases t₁ with
          | nil =>
            simp only [List.nil_append] at h
            injection h with hp hrest
            exact ⟨hrest.symm, h2⟩
          | cons x t₁' =>
            injection h with hp hrest
            exact absurd hrest.symm (by simp)
        · by_cases ht : ev.Evict ctx p' = EvictOutcome.totalLimit
          · have h1 : (scanPods ev v ctx (p' :: rest)).1 = [p'] := by
              rw [scanPods_cons_totalLimit rest hv hf ht]
            rw [h1] at h
            cases t₁ with
            | nil =>
              simp only [List.nil_append] at h
              injection h with hp hrest
              subst hp
              exact absurd he hn
            | cons x t₁' =>
              injection h with hp hrest
              exact absurd hrest.symm (by simp)
          · have h1 : (scanPods ev v ctx (p' :: rest)).1 =
                p' :: (scanPods ev v ctx rest).1 := by
              rw [scanPods_cons_default rest hv hf hn ht]
            have h2 : (scanPods ev v ctx (p' :: rest)).2 =
                (scanPods ev v ctx rest).2 := by
              rw [scanPods_cons_default rest hv hf hn ht]
            rw [h1] at h
            cases t₁ with
            | nil =>
              simp only [List.nil_append] at h
              injection h with hp hrest
              subst hp
              exact absurd he hn
            | cons x t₁' =>
              injection h with hp hrest
              rcases ih t₁' p t₂ hrest he with ⟨ha, hb⟩
              exact ⟨ha, h2.trans hb⟩
      · have h1 : scanPods ev v ctx (p' :: rest) = scanPods ev v ctx rest :=
          scanPods_cons_not_admitted ctx rest hv hf
        rw [h1] at h ⊢
        exact ih t₁ p t₂ h he
    · have h1 : scanPods ev v ctx (p' :: rest) = scanPods ev v ctx rest :=
        scanPods_cons_not_violating ev ctx rest hv
      rw [h1] at h ⊢
      exact ih t₁ p t₂ h he

theorem scanPods_totalLimit_last (ev : Evictor) (v : Pod → Bool) (ctx : Ctx) :
    ∀ l t₁ p t₂, (scanPods ev v ctx l).1 = t₁ ++ p :: t₂ →
      ev.Evict ctx p = EvictOutcome.totalLimit →
      t₂ = [] ∧ (scanPods ev v ctx l).2 = NodeScan.totalLimitHit := by
  intro l
  induction l with
  | nil =>
    intro t₁ p t₂ h _
    exact absurd h.symm (by simp [scanPods])
  | cons p' rest ih =>
    intro t₁ p t₂ h he
    by_cases hv : v p' = true
    · by_cases hf : (ev.Filter p' && ev.PreEvictionFilter p') = true
      · by_cases hn : ev.Evict ctx p' = EvictOutcome.nodeLimit
        · have h1 : (scanPods ev v ctx (p' :: rest)).1 = [p'] := by
            rw [scanPods_cons_nodeLimit rest hv hf hn]
          rw [h1] at h
          cases t₁ with
          | nil =>
            simp only [List.nil_append] at h
            injection h with hp hrest
            subst hp
            exact EvictOutcome.noConfusion (hn.symm.trans he)
          | cons x t₁' =>
            injection h with hp hrest
            exact absurd hrest.symm (by simp)
        · by_cases ht : ev.Evict ctx p' = EvictOutcome.totalLimit
          · have h1 : (scanPods ev v ctx (p' :: rest)).1 = [p'] := by
              rw [scanPods_cons_totalLimit rest hv hf ht]
            have h2 : (scanPods ev v ctx (p' :: rest)).2 = NodeScan.totalLimitHit := by
              rw [scanPods_cons_totalLimit rest hv hf ht]
            rw [h1] at h
            cases t₁ with
            | nil =>
              simp only [List.nil_append] at h
              injection h with hp hrest
              exact ⟨hrest.symm, h2⟩
            | cons x t₁' =>
              injection h with hp hrest
              exact absurd hrest.symm (by simp)
          · have h1 : (scanPods ev v ctx (p' :: rest)).1 =
                p' :: (scanPods ev v ctx rest).1 := by
              rw [scanPods_cons_default rest hv hf hn ht]
            have h2 : (scanPods ev v ctx (p' :: rest)).2 =
                (scanPods ev v ctx rest).2 := by
              rw [scanPods_cons_default rest hv hf hn ht]
            rw [h1] at h
            cases t₁ with
            | nil =>
              simp only [List.nil_append] at h
              injection h with hp hrest
              subst hp
              exact absurd he ht
            | cons x t₁' =>
              injection h with hp hrest
              rcases ih t₁' p t₂ hrest he with ⟨ha, hb⟩
              exact ⟨ha, h2.trans hb⟩
      · have h1 : scanPods ev v ctx (p' :: rest) = scanPods ev v ctx rest :=
          scanPods_cons_not_admitted ctx rest hv hf
        rw [h1] at h ⊢
        exact ih t₁ p t₂ h he
    · have h1 : scanPods ev v ctx (p' :: rest) = scanPods ev v ctx rest :=
        scanPods_cons_not_violating ev ctx rest hv
      rw [h1] at h ⊢
      exact ih t₁ p t₂ h he

/-! ### Properties of the outer node loop -/

theorem append_split {α : Type} {t T t₁ t₂ : List α} {p : α}
    (h : t ++ T = t₁ ++ p :: t₂) :
    (∃ t₂', t = t₁ ++ p :: t₂' ∧ t₂ = t₂' ++ T) ∨
      (∃ t₁', T = t₁' ++ p :: t₂ ∧ t₁ = t ++ t₁') := by
  rcases List.append_eq_append_iff.mp h with ⟨a', h1, h2⟩ | ⟨c', h1, h2⟩
  · exact Or.inr ⟨a', h2, h1⟩
  · cases c' with
    | nil =>
      refine Or.inr ⟨[], ?_, ?_⟩
      · simpa using h2.symm
      · simpa using h1.symm
    | cons x c'' =>
      injection h2 with hx ht
      refine Or.inl ⟨c'', ?_, ht⟩
      rw [h1, hx]

theorem scanNodes_cons_total {ev : Evictor} {v : Pod → Bool} {g : String → List Pod}
    {ctx : Ctx} {n : Node} (rest : List Node)
    (hflag : (scanPods ev v ctx (SortPodsBasedOnPriorityLowToHigh (g n.Name))).2 =
      NodeScan.totalLimitHit) :
    scanNodes ev v g ctx (n :: rest) =
      (scanPods ev v ctx (SortPodsBasedOnPriorityLowToHigh (g n.Name))).1 := by
  simp [scanNodes, hflag]

theorem scanNodes_cons_not_total {ev : Evictor} {v : Pod → Bool} {g : String → List Pod}
    {ctx : Ctx} {n : Node} (rest : List Node)
    (hflag : ¬ (scanPods ev v ctx (SortPodsBasedOnPriorityLowToHigh (g n.Name))).2 =
      NodeScan.totalLimitHit) :
    scanNodes ev v g ctx (n :: rest) =
      (scanPods ev v ctx (SortPodsBasedOnPriorityLowToHigh (g n.Name))).1 ++
        scanNodes ev v g ctx rest := by
  simp [scanNodes, hflag]

theorem scanNodes_mem (ev : Evictor) (v : Pod → Bool) (g : String → List Pod) (ctx : Ctx) :
    ∀ ns q, q ∈ scanNodes ev v g ctx ns →
      ∃ n, n ∈ ns ∧ q ∈ g n.Name ∧ v q = true ∧
        ev.Filter q = true ∧ ev.PreEvictionFilter q = true := by
  intro ns
  induction ns with
  | nil => intro q hq; simp [scanNodes] at hq
  | cons n rest ih =>
    intro q hq
    by_cases hflag : (scanPods ev v ctx (SortPodsBasedOnPriorityLowToHigh (g n.Name))).2 =
        NodeScan.totalLimitHit
    · rw [scanNodes_cons_total rest hflag] at hq
      rcases scanPods_mem ev v ctx _ q hq with ⟨hmem, hrest⟩
      exact ⟨n, List.mem_cons_self n rest, sortPods_mem.mp hmem, hrest⟩
    · rw [scanNodes_cons_not_total rest hflag] at hq
      rcases List.mem_append.mp hq with hq | hq
      · rcases scanPods_mem ev v ctx _ q hq with ⟨hmem, hrest⟩
        exact ⟨n, List.mem_cons_self n rest, sortPods_mem.mp hmem, hrest⟩
      · rcases ih q hq with ⟨n', hn', hrest⟩
        exact ⟨n', List.mem_cons_of_mem n hn', hrest⟩

theorem scanNodes_totalLimit_last (ev : Evictor) (v : Pod → Bool)
    (g : String → List Pod) (ctx : Ctx) :
    ∀ ns t₁ p t₂, scanNodes ev v g ctx ns = t₁ ++ p :: t₂ →
      ev.Evict ctx p = EvictOutcome.totalLimit → t₂ = [] := by
  intro ns
  induction ns with
  | nil =>
    intro t₁ p t₂ h _
    exact absurd h.symm (by simp [scanNodes])
  | cons n rest ih =>
    intro t₁ p t₂ h he
    by_cases hflag : (scanPods ev v ctx (SortPodsBasedOnPriorityLowToHigh (g n.Name))).2 =
        NodeScan.totalLimitHit
    · rw [scanNodes_cons_total rest hflag] at h
      exact (scanPods_totalLimit_last ev v ctx _ t₁ p t₂ h he).1
    · rw [scanNodes_cons_not_total rest hflag] at h
      rcases append_split h with ⟨t₂', h1, h2⟩ | ⟨t₁', h1, h2⟩
      · rcases scanPods_totalLimit_last ev v ctx _ t₁ p t₂' h1 he with ⟨_, hfl⟩
        exact absurd hfl hflag
      · exact ih t₁' p t₂ h1 he

theorem scanNodes_nodeLimit_no_same_node (ev : Evictor) (v : Pod → Bool)
    (g : String → List Pod) (ctx : Ctx)
    (hg : ∀ name q, q ∈ g name → q.NodeName = name) :
    ∀ ns, (ns.map Node.Name).Nodup →
      ∀ t₁ p t₂, scanNodes ev v g ctx ns = t₁ ++ p :: t₂ →
        ev.Evict ctx p = EvictOutcome.nodeLimit →
        ∀ q ∈ t₂, q.NodeName ≠ p.NodeName := by
  intro ns
  induction ns with
  | nil =>
    intro _ t₁ p t₂ h _
    exact absurd h.symm (by simp [scanNodes])
  | cons n rest ih =>
    intro hnd t₁ p t₂ h he
    rw [List.map_cons, List.nodup_cons] at hnd
    by_cases hflag : (scanPods ev v ctx (SortPodsBasedOnPriorityLowToHigh (g n.Name))).2 =
        NodeScan.totalLimitHit
    · rw [scanNodes_cons_total rest hflag] at h
      rcases scanPods_nodeLimit_last ev v ctx _ t₁ p t₂ h he with ⟨h2, _⟩
      subst h2
      intro q hq
      exact absurd hq (List.not_mem_nil q)
    · rw [scanNodes_cons_not_total rest hflag] at h
      rcases append_split h with ⟨t₂', h1, h2⟩ | ⟨t₁', h1, h2⟩
      · rcases scanPods_nodeLimit_last ev v ctx _ t₁ p t₂' h1 he with ⟨h3, _⟩
        subst h3
        simp only [List.nil_append] at h2
        subst h2
        intro q hq
        rcases scanNodes_mem ev v g ctx rest q hq with ⟨n', hn', hq', _⟩
        have hp : p ∈ (scanPods ev v ctx
            (SortPodsBasedOnPriorityLowToHigh (g n.Name))).1 := by
          rw [h1]
          exact List.mem_append_right t₁ (List.mem_cons_self p [])
        rcases scanPods_mem ev v ctx _ p hp with ⟨hpmem, _⟩
        have hpn : p.NodeName = n.Name := hg _ p (sortPods_mem.mp hpmem)
        have hqn : q.NodeName = n'.Name := hg _ q hq'
        rw [hqn, hpn]
        intro hcontra
        exact hnd.1 (hcontra ▸ List.mem_map_of_mem Node.Name hn')
      · exact ih hnd.2 t₁' p t₂ h1 he

theorem scanNodes_nodup (ev : Evictor) (v : Pod → Bool) (g : String → List Pod) (ctx : Ctx)
    (hg : ∀ name q, q ∈ g name → q.NodeName = name)
    (hgn : ∀ name, (g name).Nodup) :
    ∀ ns, (ns.map Node.Name).Nodup → (scanNodes ev v g ctx ns).Nodup := by
  intro ns
  induction ns with
  | nil => intro _; simp [scanNodes]
  | cons n rest ih =>
    intro hnd
    rw [List.map_cons, List.nodup_cons] at hnd
    have hsorted : (SortPodsBasedOnPriorityLowToHigh (g n.Name)).Nodup :=
      ((sortPods_perm (g n.Name)).nodup_iff).mpr (hgn n.Name)
    have htr : (scanPods ev v ctx (SortPodsBasedOnPriorityLowToHigh (g n.Name))).1.Nodup :=
      hsorted.sublist (scanPods_sublist ev v ctx _)
    by_cases hflag : (scanPods ev v ctx (SortPodsBasedOnPriorityLowToHigh (g n.Name))).2 =
        NodeScan.totalLimitHit
    · rw [scanNodes_cons_total rest hflag]
      exact htr
    · rw [scanNodes_cons_not_total rest hflag]
      refine List.Nodup.append htr (ih hnd.2) ?_
      intro q hq hq'
      rcases scanPods_mem ev v ctx _ q hq with ⟨hmem, _⟩
      have h1 : q.NodeName = n.Name := hg _ q (sortPods_mem.mp hmem)
      rcases scanNodes_mem ev v g ctx rest q hq' with ⟨n', hn', hq'', _⟩
      have h2 : q.NodeName = n'.Name := hg _ q hq''
      have h3 : n'.Name = n.Name := h2.symm.trans h1
      exact hnd.1 (h3 ▸ List.mem_map_of_mem Node.Name hn')

/-! ### Context is only forwarded, never inspected -/

theorem scanPods_ctx_congr (ev : Evictor) (v : Pod → Bool) (c c' : Ctx)
    (hev : ∀ d d' q, ev.Evict d q = ev.Evict d' q) :
    ∀ l, scanPods ev v c l = scanPods ev v c' l := by
  intro l
  induction l with
  | nil => rfl
  | cons p rest ih =>
    simp only [scanPods, hev c c' p, ih]

theorem scanNodes_ctx_congr (ev : Evictor) (v : Pod → Bool) (g : String → List Pod)
    (c c' : Ctx) (hev : ∀ d d' q, ev.Evict d q = ev.Evict d' q) :
    ∀ ns, scanNodes ev v g c ns = scanNodes ev v g c' ns := by
  intro ns
  induction ns with
  | nil => rfl
  | cons n rest ih =>
    simp only [scanNodes, scanPods_ctx_congr ev v c c' hev, ih]

/-! ### Unfolding equations of Deschedule -/

theorem Deschedule_err {h : Handle} {nodes : List Node} {e : String} (ctx : Ctx)
    (hl : h.ListPodsOnNodes nodes = Except.error e) :
    Deschedule h ctx nodes = (some ⟨some ("error listing all pods: " ++ e)⟩, []) := by
  simp [Deschedule, hl]

theorem Deschedule_ok {h : Handle} {nodes : List Node} {pods : List Pod} (ctx : Ctx)
    (hl : h.ListPodsOnNodes nodes = Except.ok pods) :
    Deschedule h ctx nodes =
      (none, scanNodes h.evictor
        (fun p => h.CheckPodAffinityViolation p (GroupByNamespace pods) (CreateNodeMap nodes))
        (GroupByNodeName pods) ctx nodes) := by
  simp [Deschedule, hl]

theorem groupByNodeName_nodeName {pods : List Pod} {name : String} {q : Pod}
    (hq : q ∈ GroupByNodeName pods name) : q.NodeName = name := by
  unfold GroupByNodeName at hq
  rcases List.mem_filter.mp hq with ⟨_, hbeq⟩
  exact eq_of_beq hbeq

theorem groupByNodeName_mem {pods : List Pod} {name : String} {q : Pod}
    (hq : q ∈ GroupByNodeName pods name) : q ∈ pods :=
  (List.mem_filter.mp hq).1

theorem groupByNodeName_nodup {pods : List Pod} (hnd : pods.Nodup) (name : String) :
    (GroupByNodeName pods name).Nodup :=
  hnd.filter _

/-! ### The claims -/

/-- C1: once an eviction attempt returns the total-budget-exhausted outcome,
the run terminates immediately and cleanly — the pod with that outcome is
the last `Evict` call of the whole run, on this or any later node, and the
returned `*Status` is nil. -/
theorem deschedule_totalLimit_ends_run (h : Handle) (ctx : Ctx) (nodes : List Node) :
    ∀ t₁ p t₂, (Deschedule h ctx nodes).2 = t₁ ++ p :: t₂ →
      h.evictor.Evict ctx p = EvictOutcome.totalLimit →
      t₂ = [] ∧ (Deschedule h ctx nodes).1 = none := by
  intro t₁ p t₂ htr he
  cases hl : h.ListPodsOnNodes nodes with
  | error e =>
    have htr' : ([] : List Pod) = t₁ ++ p :: t₂ := by
      rw [Deschedule_err ctx hl] at htr
      exact htr
    exact absurd htr'.symm (by simp)
  | ok pods =>
    rw [Deschedule_ok ctx hl] at htr
    refine ⟨scanNodes_totalLimit_last h.evictor _ _ ctx nodes t₁ p t₂ htr he, ?_⟩
    rw [Deschedule_ok ctx hl]

/-- Witness for C1: with a gate that reports total-budget exhaustion on the
first attempt and two nodes holding one flagged pod each, the run's trace
is exactly that one attempt and the run ends cleanly. -/
theorem deschedule_totalLimit_ends_run_witness :
    ((Deschedule handleTotal ctxLive [nodeA, nodeB]).2 = [] ++ podA :: [] ∧
      handleTotal.evictor.Evict ctxLive podA = EvictOutcome.totalLimit) ∧
    (([] : List Pod) = [] ∧ (Deschedule handleTotal ctxLive [nodeA, nodeB]).1 = none) := by
  have h1 : (Deschedule handleTotal ctxLive [nodeA, nodeB]).2 = [] ++ podA :: [] := by
    decide
  have h2 : handleTotal.evictor.Evict ctxLive podA = EvictOutcome.totalLimit := rfl
  exact ⟨⟨h1, h2⟩, deschedule_totalLimit_ends_run handleTotal ctxLive [nodeA, nodeB] [] podA [] h1 h2⟩

/-- C2: a node-budget-exhausted outcome on a pod of node N abandons the
remainder of N's pod list — no later `Evict` call of the run touches a pod
of N — and the outer loop proceeds to the nodes after N, which are
processed exactly as usual, so eviction attempts remain permitted there. -/
theorem deschedule_nodeLimit_abandons_node :
    (∀ (h : Handle) (ctx : Ctx) (nodes : List Node),
      (nodes.map Node.Name).Nodup →
      ∀ t₁ p t₂, (Deschedule h ctx nodes).2 = t₁ ++ p :: t₂ →
        h.evictor.Evict ctx p = EvictOutcome.nodeLimit →
        ∀ q ∈ t₂, q.NodeName ≠ p.NodeName) ∧
    (∀ (ev : Evictor) (v : Pod → Bool) (g : String → List Pod) (ctx : Ctx)
        (n : Node) (rest : List Node),
      (scanPods ev v ctx (SortPodsBasedOnPriorityLowToHigh (g n.Name))).2 =
        NodeScan.nodeLimitHit →
      scanNodes ev v g ctx (n :: rest) =
        (scanPods ev v ctx (SortPodsBasedOnPriorityLowToHigh (g n.Name))).1 ++
          scanNodes ev v g ctx rest) := by
  constructor
  · intro h ctx nodes hnd t₁ p t₂ htr he
    cases hl : h.ListPodsOnNodes nodes with
    | error e =>
      have htr' : ([] : List Pod) = t₁ ++ p :: t₂ := by
        rw [Deschedule_err ctx hl] at htr
        exact htr
      exact absurd htr'.symm (by simp)
    | ok pods =>
      rw [Deschedule_ok ctx hl] at htr
      exact scanNodes_nodeLimit_no_same_node h.evictor _ _ ctx
        (fun name q hq => groupByNodeName_nodeName hq) nodes hnd t₁ p t₂ htr he
  · intro ev v g ctx n rest hflag
    refine scanNodes_cons_not_total rest ?_
    rw [hflag]
    decide

/-- Witness for C2: three nodes A, B, C each with one flagged, admitted pod;
the gate succeeds on A's and C's pods and reports the node budget exhausted
on B's pod.  All three attempts occur, and no attempt after B's pod touches
B's node. -/
theorem deschedule_nodeLimit_abandons_node_witness :
    ((([nodeA, nodeB, nodeC] : List Node).map Node.Name).Nodup ∧
      (Deschedule handleABC ctxLive [nodeA, nodeB, nodeC]).2 = [podA] ++ podB :: [podC] ∧
      handleABC.evictor.Evict ctxLive podB = EvictOutcome.nodeLimit) ∧
    (∀ q ∈ [podC], q.NodeName ≠ podB.NodeName) := by
  have hnd : (([nodeA, nodeB, nodeC] : List Node).map Node.Name).Nodup := by decide
  have htr : (Deschedule handleABC ctxLive [nodeA, nodeB, nodeC]).2 =
      [podA] ++ podB :: [podC] := by decide
  have he : handleABC.evictor.Evict ctxLive podB = EvictOutcome.nodeLimit := by decide
  exact ⟨⟨hnd, htr, he⟩,
    deschedule_nodeLimit_abandons_node.1 handleABC ctxLive [nodeA, nodeB, nodeC]
      hnd [podA] podB [podC] htr he⟩

/-- C3: the run mutates no input data: the Priority Orderer returns a new
sequence that is a permutation of the pods it is given (the input list is a
pure value and stays intact), and every pod the run dispatches to the gate
is an element of the listed candidate pod set, unchanged. -/
theorem deschedule_no_input_mutation (h : Handle) (ctx : Ctx) (nodes : List Node)
    (pods : List Pod) (hl : h.ListPodsOnNodes nodes = Except.ok pods) :
    (∀ l : List Pod, List.Perm (SortPodsBasedOnPriorityLowToHigh l) l) ∧
    (∀ q ∈ (Deschedule h ctx nodes).2, q ∈ pods) := by
  refine ⟨sortPods_perm, ?_⟩
  intro q hq
  rw [Deschedule_ok ctx hl] at hq
  rcases scanNodes_mem h.evictor _ _ ctx nodes q hq with ⟨n, _, hqg, _⟩
  exact groupByNodeName_mem hqg

/-- Witness for C3 at a concrete three-node run. -/
theorem deschedule_no_input_mutation_witness :
    (handleABC.ListPodsOnNodes [nodeA, nodeB, nodeC] = Except.ok [podA, podB, podC]) ∧
    ((∀ l : List Pod, List.Perm (SortPodsBasedOnPriorityLowToHigh l) l) ∧
      (∀ q ∈ (Deschedule handleABC ctxLive [nodeA, nodeB, nodeC]).2,
        q ∈ [podA, podB, podC])) :=
  ⟨rfl, deschedule_no_input_mutation handleABC ctxLive [nodeA, nodeB, nodeC]
    [podA, podB, podC] rfl⟩

/-- C4 counterexample: the loop never observes the cancellation signal.  In
a run whose context is cancelled from the start, with two nodes each
holding one flagged, admitted pod and a gate that always succeeds, the run
still completes both nodes — the trace contains an `Evict` call for the
second node's pod — instead of stopping without completing the remaining
nodes. -/
theorem deschedule_cancelled_ctx_completes_run :
    (Deschedule handleSuccess ctxCancelled [nodeA, nodeB]).2 = [podA, podB] ∧
    podB.NodeName = nodeB.Name ∧
    (Deschedule handleSuccess ctxCancelled [nodeA, nodeB]).1 = none := by
  decide

/-- C4 amended: `Deschedule` itself never inspects the invocation context;
it only forwards it to `Evict`.  For any gate whose outcomes do not depend
on the context, a run under a cancelled context is identical — same status,
same `Evict` trace — to the run under a live one, completing all
nodes. -/
theorem deschedule_ctx_not_observed (h : Handle) (c c' : Ctx) (nodes : List Node)
    (hev : ∀ d d' q, h.evictor.Evict d q = h.evictor.Evict d' q) :
    Deschedule h c nodes = Deschedule h c' nodes := by
  cases hl : h.ListPodsOnNodes nodes with
  | error e => rw [Deschedule_err c hl, Deschedule_err c' hl]
  | ok pods =>
    rw [Deschedule_ok c hl, Deschedule_ok c' hl,
      scanNodes_ctx_congr h.evictor _ _ c c' hev nodes]

/-- Witness for the amended C4: with the always-succeeding gate, the
cancelled-context run equals the live-context run. -/
theorem deschedule_ctx_not_observed_witness :
    (∀ d d' q, handleSuccess.evictor.Evict d q = handleSuccess.evictor.Evict d' q) ∧
    Deschedule handleSuccess ctxCancelled [nodeA, nodeB] =
      Deschedule handleSuccess ctxLive [nodeA, nodeB] :=
  ⟨fun _ _ _ => rfl,
    deschedule_ctx_not_observed handleSuccess ctxCancelled ctxLive [nodeA, nodeB]
      (fun _ _ _ => rfl)⟩

/-- C5: every `Evict` call of a run is on a listed pod that the Affinity
Oracle flagged and that passed both admission checks; with duplicate-free
inputs each pod is attempted at most once (the trace has no duplicates), so
the number of attempts never exceeds the number of flagged pods; if the
oracle flags nothing, no attempt occurs. -/
theorem deschedule_attempts_bounded (h : Handle) (ctx : Ctx) (nodes : List Node)
    (pods : List Pod) (hl : h.ListPodsOnNodes nodes = Except.ok pods)
    (hpods : pods.Nodup) (hnames : (nodes.map Node.Name).Nodup) :
    (∀ q ∈ (Deschedule h ctx nodes).2,
        q ∈ pods ∧
        h.CheckPodAffinityViolation q (GroupByNamespace pods) (CreateNodeMap nodes) = true ∧
        h.evictor.Filter q = true ∧ h.evictor.PreEvictionFilter q = true) ∧
    (Deschedule h ctx nodes).2.Nodup ∧
    (Deschedule h ctx nodes).2.length ≤
      (pods.filter (fun q =>
        h.CheckPodAffinityViolation q (GroupByNamespace pods) (CreateNodeMap nodes))).length ∧
    ((∀ q, h.CheckPodAffinityViolation q (GroupByNamespace pods) (CreateNodeMap nodes) = false) →
      (Deschedule h ctx nodes).2 = []) := by
  have hmemq : ∀ q ∈ (Deschedule h ctx nodes).2,
      q ∈ pods ∧
      h.CheckPodAffinityViolation q (GroupByNamespace pods) (CreateNodeMap nodes) = true ∧
      h.evictor.Filter q = true ∧ h.evictor.PreEvictionFilter q = true := by
    intro q hq
    rw [Deschedule_ok ctx hl] at hq
    rcases scanNodes_mem h.evictor _ _ ctx nodes q hq with ⟨n, _, hqg, hv, hf1, hf2⟩
    exact ⟨groupByNodeName_mem hqg, hv, hf1, hf2⟩
  have hnodup : (Deschedule h ctx nodes).2.Nodup := by
    rw [Deschedule_ok ctx hl]
    exact scanNodes_nodup h.evictor _ _ ctx
      (fun name q hq => groupByNodeName_nodeName hq)
      (fun name => groupByNodeName_nodup hpods name) nodes hnames
  have hsub : (Deschedule h ctx nodes).2 ⊆ pods.filter (fun q =>
      h.CheckPodAffinityViolation q (GroupByNamespace pods) (CreateNodeMap nodes)) := by
    intro q hq
    rcases hmemq q hq with ⟨h1, h2, _⟩
    exact List.mem_filter.mpr ⟨h1, h2⟩
  refine ⟨hmemq, hnodup, (hnodup.subperm hsub).length_le, ?_⟩
  intro hall
  refine List.eq_nil_iff_forall_not_mem.mpr (fun q hq => ?_)
  rcases hmemq q hq with ⟨_, h2, _⟩
  rw [hall q] at h2
  exact Bool.noConfusion h2

/-- Witness for C5 at the concrete three-node run. -/
theorem deschedule_attempts_bounded_witness :
    (handleABC.ListPodsOnNodes [nodeA, nodeB, nodeC] = Except.ok [podA, podB, podC] ∧
      ([podA, podB, podC] : List Pod).Nodup ∧
      (([nodeA, nodeB, nodeC] : List Node).map Node.Name).Nodup) ∧
    (Deschedule handleABC ctxLive [nodeA, nodeB, nodeC]).2.Nodup := by
  have h1 : handleABC.ListPodsOnNodes [nodeA, nodeB, nodeC] =
      Except.ok [podA, podB, podC] := rfl
  have h2 : ([podA, podB, podC] : List Pod).Nodup := by decide
  have h3 : (([nodeA, nodeB, nodeC] : List Node).map Node.Name).Nodup := by decide
  exact ⟨⟨h1, h2, h3⟩,
    (deschedule_attempts_bounded handleABC ctxLive [nodeA, nodeB, nodeC]
      [podA, podB, podC] h1 h2 h3).2.1⟩

/-- C6: within one node pods are visited in the Priority Orderer's output
order, which is sorted by the eviction key — non-decreasing declared
priority, ties broken by ascending QoS tier — and stable: the pods of any
fixed key keep their relative input order, so the visit order is
reproducible from the input order. -/
theorem sortPods_visit_order :
    (∀ l : List Pod, List.Sorted evictionKeyLe (SortPodsBasedOnPriorityLowToHigh l)) ∧
    (∀ (l : List Pod) (k : Int × Nat),
      (SortPodsBasedOnPriorityLowToHigh l).filter (fun p => decide (evictionKey p = k)) =
        l.filter (fun p => decide (evictionKey p = k))) :=
  ⟨sortPods_sorted, sortPods_stable⟩

/-- C7: a listing/grouping failure is fatal: `Deschedule` returns a non-nil
`*Status` carrying the error and the run performs zero `Evict` calls. -/
theorem deschedule_listing_error_aborts (h : Handle) (ctx : Ctx) (nodes : List Node)
    (e : String) (hl : h.ListPodsOnNodes nodes = Except.error e) :
    Deschedule h ctx nodes = (some ⟨some ("error listing all pods: " ++ e)⟩, []) :=
  Deschedule_err ctx hl

/-- Witness for C7: a handle whose listing fails with "boom". -/
theorem deschedule_listing_error_aborts_witness :
    (handleErr.ListPodsOnNodes [nodeA] = Except.error "boom") ∧
    Deschedule handleErr ctxLive [nodeA] =
      (some ⟨some ("error listing all pods: " ++ "boom")⟩, []) :=
  ⟨rfl, deschedule_listing_error_aborts handleErr ctxLive [nodeA] "boom" rfl⟩

/-- C9: any eviction outcome other than the node-limit and total-limit
errors — success (nil), a namespace-budget error, or any other error —
falls into the switch's default branch: the scan continues with the next
pod of the same node, the trace extending by this pod only and the node's
outcome being that of the remaining pods. -/
theorem scanPods_other_outcome_continues (ev : Evictor) (v : Pod → Bool) (ctx : Ctx)
    (p : Pod) (rest : List Pod) (hv : v p = true)
    (hf1 : ev.Filter p = true) (hf2 : ev.PreEvictionFilter p = true)
    (hn : ev.Evict ctx p ≠ EvictOutcome.nodeLimit)
    (ht : ev.Evict ctx p ≠ EvictOutcome.totalLimit) :
    scanPods ev v ctx (p :: rest) =
      (p :: (scanPods ev v ctx rest).1, (scanPods ev v ctx rest).2) := by
  refine scanPods_cons_default rest hv ?_ hn ht
  rw [hf1, hf2]
  rfl

/-- Witness for C9: a gate reporting namespace-budget exhaustion — the scan
still continues with the next pod of the node. -/
theorem scanPods_other_outcome_continues_witness :
    (vAll podA = true ∧ evictorNamespaceLimit.Filter podA = true ∧
      evictorNamespaceLimit.PreEvictionFilter podA = true ∧
      evictorNamespaceLimit.Evict ctxLive podA ≠ EvictOutcome.nodeLimit ∧
      evictorNamespaceLimit.Evict ctxLive podA ≠ EvictOutcome.totalLimit) ∧
    scanPods evictorNamespaceLimit vAll ctxLive (podA :: [podB]) =
      (podA :: (scanPods evictorNamespaceLimit vAll ctxLive [podB]).1,
        (scanPods evictorNamespaceLimit vAll ctxLive [podB]).2) := by
  have hn : evictorNamespaceLimit.Evict ctxLive podA ≠ EvictOutcome.nodeLimit := by decide
  have ht : evictorNamespaceLimit.Evict ctxLive podA ≠ EvictOutcome.totalLimit := by decide
  exact ⟨⟨rfl, rfl, rfl, hn, ht⟩,
    scanPods_other_outcome_continues evictorNamespaceLimit vAll ctxLive podA [podB]
      rfl rfl rfl hn ht⟩

/-- C8: supplying both an include and an exclude namespace set is a
configuration error raised before the selection loop ever runs: `New`
returns an error (no plugin is produced), and argument validation rejects
the arguments. -/
theorem new_rejects_include_and_exclude (args : RemovePodsViolatingInterPodAffinityArgs)
    (handle : Handle) (nss : Namespaces)
    (hargs : args.Namespaces = some nss)
    (hinc : nss.Include ≠ []) (hexc : nss.Exclude ≠ []) :
    (∃ msg, New args handle = Except.error msg) ∧
    (∃ msg, ValidateRemovePodsViolatingInterPodAffinityArgs args = Except.error msg) := by
  constructor
  · unfold New BuildFilterFunc
    rw [hargs]
    simp only [if_pos (And.intro hinc hexc)]
    exact ⟨_, rfl⟩
  · unfold ValidateRemovePodsViolatingInterPodAffinityArgs
    rw [hargs]
    simp only [if_pos (And.intro hinc hexc)]
    exact ⟨_, rfl⟩

/-- Witness for C8: arguments including "default" and excluding
"kube-system" simultaneously are rejected by `New` and by validation. -/
theorem new_rejects_include_and_exclude_witness :
    (argsBoth.Namespaces = some ⟨["default"], ["kube-system"]⟩ ∧
      (["default"] : List String) ≠ [] ∧ (["kube-system"] : List String) ≠ []) ∧
    ((∃ msg, New argsBoth handleSuccess = Except.error msg) ∧
      (∃ msg, ValidateRemovePodsViolatingInterPodAffinityArgs argsBoth =
        Except.error msg)) := by
  have h2 : (["default"] : List String) ≠ [] := by decide
  have h3 : (["kube-system"] : List String) ≠ [] := by decide
  exact ⟨⟨rfl, h2, h3⟩,
    new_rejects_include_and_exclude argsBoth handleSuccess ⟨["default"], ["kube-system"]⟩
      rfl h2 h3⟩

/-- C10: the defaulting function is the identity — no field of the
arguments object is changed — and is therefore idempotent. -/
theorem setDefaults_is_identity (args : RemovePodsViolatingInterPodAffinityArgs) :
    SetDefaults_RemovePodsViolatingInterPodAffinityArgs args = args ∧
    SetDefaults_RemovePodsViolatingInterPodAffinityArgs
        (SetDefaults_RemovePodsViolatingInterPodAffinityArgs args) =
      SetDefaults_RemovePodsViolatingInterPodAffinityArgs args := by
  have hid : SetDefaults_RemovePodsViolatingInterPodAffinityArgs args = args := by
    unfold SetDefaults_RemovePodsViolatingInterPodAffinityArgs
    cases args with
    | mk ns ls => cases ns <;> cases ls <;> simp
  exact ⟨hid, by rw [hid, hid]⟩

end InterPodAffinity
